import Mathlib

/-!
Verification of the SSE (server-sent events) proxy `src/main.py`.

The program is embedded shallowly:

* Raw bytes are modelled as `List Nat` (each element one byte value).
* `SSEClient._read` (frame reassembly) and `SSEClient.events` (frame
  decoding) are translated operation by operation; Python's
  `bytes.splitlines(keepends)` is reproduced by `splitlinesKeep` /
  `splitlinesDrop`, and `bytes.endswith((b'\r\r', b'\n\n', b'\r\n\r\n'))`
  by `isDelimEnd`.
* The per-line `line.decode('utf-8')` of the source is modelled
  byte-transparently: every byte that drives control flow (the `:`
  separator, the field names `id`/`event`/`data`/`retry`, the leading
  space of a value, ASCII whitespace) is a single ASCII byte, and UTF-8
  continuation bytes are all >= 0x80, so the byte-level parse agrees
  with the source's parse of the decoded text on every line.
* The Flask handler `proxy` and the decompression dispatch of
  `log_response` are modelled as pure functions; the external
  decompression libraries (`brotlicffi`, `gzip`, `zlib`) appear as an
  oracle parameter `codecs` returning `none` where the library would
  raise, and an exception escaping the handler is the `none` result of
  `proxy`.
-/

set_option maxRecDepth 100000

/-- Bytes of an ASCII string literal (used only on ASCII literals, where
UTF-8 encoding is the identity on code points). -/
def asciiBytes (s : String) : List Nat :=
  s.data.map Char.toNat

/-- Tail test on a reversed byte list: the reversed forms of the three
delimiters `\r\r`, `\n\n`, `\r\n\r\n` as prefixes. -/
def isDelimEndR (r : List Nat) : Bool :=
  decide (r.take 2 = [13, 13] ∨ r.take 2 = [10, 10] ∨ r.take 4 = [10, 13, 10, 13])

/-- `data.endswith((b'\r\r', b'\n\n', b'\r\n\r\n'))` from `SSEClient._read`. -/
def isDelimEnd (d : List Nat) : Bool :=
  isDelimEndR d.reverse

/-- Reassembler state: frames yielded so far, and the accumulation buffer
`data` of `SSEClient._read`. -/
abbrev ReadState := List (List Nat) × List Nat

/-- The body of the inner loop of `SSEClient._read`: append one line to the
buffer, emit the buffer as a frame when it ends with a delimiter pair. -/
def lineStep (s : ReadState) (line : List Nat) : ReadState :=
  let d := s.2 ++ line
  if isDelimEnd d then (s.1 ++ [d], []) else (s.1, d)

/-- One byte fed to the same accumulate-and-check loop (the fully split
partition); used as the canonical form when proving chunk invariance. -/
def byteStep (s : ReadState) (b : Nat) : ReadState :=
  let d := s.2 ++ [b]
  if isDelimEnd d then (s.1 ++ [d], []) else (s.1, d)

/-- Python `bytes.splitlines(keepends=True)`: split on `\r`, `\n`, `\r\n`,
keeping the terminators; `acc` holds the current line's bytes reversed. -/
def splitKeepGo : List Nat → List Nat → List (List Nat)
  | [], acc => if acc = [] then [] else [acc.reverse]
  | 13 :: 10 :: rest, acc => (acc.reverse ++ [13, 10]) :: splitKeepGo rest []
  | 13 :: rest, acc => (acc.reverse ++ [13]) :: splitKeepGo rest []
  | 10 :: rest, acc => (acc.reverse ++ [10]) :: splitKeepGo rest []
  | b :: rest, acc => splitKeepGo rest (b :: acc)

/-- `chunk.splitlines(True)` from `SSEClient._read`. -/
def splitlinesKeep (l : List Nat) : List (List Nat) :=
  splitKeepGo l []

/-- Python `bytes.splitlines()`: split on `\r`, `\n`, `\r\n`, dropping the
terminators. -/
def splitDropGo : List Nat → List Nat → List (List Nat)
  | [], acc => if acc = [] then [] else [acc.reverse]
  | 13 :: 10 :: rest, acc => acc.reverse :: splitDropGo rest []
  | 13 :: rest, acc => acc.reverse :: splitDropGo rest []
  | 10 :: rest, acc => acc.reverse :: splitDropGo rest []
  | b :: rest, acc => splitDropGo rest (b :: acc)

/-- `chunk.splitlines()` from `SSEClient.events`. -/
def splitlinesDrop (l : List Nat) : List (List Nat) :=
  splitDropGo l []

/-- Final `if data: yield data` of `SSEClient._read`: flush the residual
buffer as one last frame when it is nonempty. -/
def flushFrames (s : ReadState) : List (List Nat) :=
  if s.2 = [] then s.1 else s.1 ++ [s.2]

namespace SSEClient

/-- `SSEClient._read`: stitch incoming chunks line by line and yield a
frame whenever the accumulated buffer ends with one of the delimiter
pairs; at exhaustion flush any residual bytes as a final frame. -/
def read (chunks : List (List Nat)) : List (List Nat) :=
  flushFrames (chunks.foldl (fun s c => (splitlinesKeep c).foldl lineStep s) ([], []))

end SSEClient

/-- `SSEClient._read` run on the per-byte partition of the input: the same
accumulate-and-check loop fed one byte at a time. -/
def byteFrames (l : List Nat) : List (List Nat) :=
  flushFrames (l.foldl byteStep ([], []))

/-- The `Event` class: `id=None, event='message', data='', retry=None`.
String-valued fields hold the bytes of their text. -/
structure Event where
  id : Option (List Nat) := none
  event : List Nat := asciiBytes "message"
  data : List Nat := []
  retry : Option (List Nat) := none
deriving DecidableEq, Repr

/-- ASCII whitespace bytes (the characters `str.strip` removes that can
occur in a frame line; terminators are already gone after line-splitting). -/
def isSpaceByte (b : Nat) : Bool :=
  b = 32 || b = 9 || b = 10 || b = 13 || b = 11 || b = 12

/-- The body of the per-line loop of `SSEClient.events`: skip blank and
comment lines, split on the first `:`, strip one leading space from the
value, append to `data` or overwrite the other three recognized fields,
ignoring unknown field names. -/
def processLine (e : Event) (line : List Nat) : Event :=
  if line.all isSpaceByte then e
  else if line.headD 0 = 58 then e
  else
    let field := line.takeWhile (fun b => b ≠ 58)
    let rest := (line.dropWhile (fun b => b ≠ 58)).tail
    let value := if rest.headD 0 = 32 then rest.tail else rest
    if field = asciiBytes "data" then { e with data := e.data ++ value ++ [10] }
    else if field = asciiBytes "event" then { e with event := value }
    else if field = asciiBytes "id" then { e with id := some value }
    else if field = asciiBytes "retry" then { e with retry := some value }
    else e

/-- The `data` accumulated by the line loop of `SSEClient.events` for one
frame, before the dispatch checks (the value tested by `if not event.data`). -/
def accumulatedData (chunk : List Nat) : List Nat :=
  ((splitlinesDrop chunk).foldl processLine {}).data

/-- The per-frame body of `SSEClient.events`: parse the frame's lines into
a fresh `Event`; drop the event when the accumulated `data` is empty,
else strip one trailing newline from `data`, default an empty `event`
name to `message`, and dispatch. -/
def decodeFrame (chunk : List Nat) : Option Event :=
  let e := (splitlinesDrop chunk).foldl processLine {}
  if e.data = [] then none
  else
    some { e with
      data := if e.data.getLast? = some 10 then e.data.dropLast else e.data,
      event := if e.event = [] then asciiBytes "message" else e.event }

namespace SSEClient

/-- `SSEClient.events`: frames from `read`, each decoded to at most one
dispatched event. -/
def events (chunks : List (List Nat)) : List Event :=
  (read chunks).filterMap decodeFrame

end SSEClient

/-- The per-byte partition of a byte sequence: every chunk one byte. -/
def perByte (l : List Nat) : List (List Nat) :=
  l.map (fun b => [b])

/-- `'data: ' + event.data + '\n\n'` from `stream_generate` in `proxy`. -/
def serializeEvent (e : Event) : List Nat :=
  asciiBytes "data: " ++ e.data ++ asciiBytes "\n\n"

/-- Whether the byte sequence contains `\r\r\n` (a `\r`-terminated line
directly followed by a `\r\n`-terminated one): the only shape on which a
chunk boundary inside a `\r\n` pair changes the delimiter search. -/
def hasCRCRLF : List Nat → Bool
  | a :: b :: c :: rest => (a = 13 && b = 13 && c = 10) || hasCRCRLF (b :: c :: rest)
  | _ => false

/-- A parsed JSON value, as `request.get_json()` would return it (numbers
restricted to integers, which the relevant truthiness cases use). -/
inductive JsonValue where
  | null
  | bool (b : Bool)
  | num (n : Int)
  | str (s : String)
  | arr (elems : List JsonValue)
  | obj (fields : List (String × JsonValue))

/-- Python truthiness of a JSON value (`if not stream`). -/
def truthy : JsonValue → Bool
  | .null => false
  | .bool b => b
  | .num n => n != 0
  | .str s => s != ""
  | .arr elems => !elems.isEmpty
  | .obj fields => !fields.isEmpty

/-- `request.get_json().get('stream', None)` wrapped in `try/except`:
`none` for an unparseable body; `.get` only succeeds on an object (any
other value raises `AttributeError`, caught as `None`); a duplicated key
keeps its last value, as in Python's `json` parse. -/
def getStream : Option JsonValue → Option JsonValue
  | some (.obj fields) =>
      (fields.reverse.find? (fun kv => kv.1 == "stream")).map (fun kv => kv.2)
  | _ => none

/-- The branch condition of `proxy`: `stream` is truthy (`if not stream`
selects the buffered path). -/
def decideStreaming (parsed : Option JsonValue) : Bool :=
  match getStream parsed with
  | none => false
  | some v => truthy v

/-- ASCII `str.lower` on one character (header names are ASCII). -/
def asciiLowerChar (c : Char) : Char :=
  if 'A' ≤ c ∧ c ≤ 'Z' then Char.ofNat (c.toNat + 32) else c

/-- ASCII `str.lower` on a header name. -/
def asciiLower (s : String) : String :=
  String.mk (s.data.map asciiLowerChar)

/-- `excluded_headers = ['content-length', 'connection']` in `proxy`. -/
def excludedHeaders : List String :=
  ["content-length", "connection"]

/-- The header relay of the buffered path of `proxy`: keep each
`(name, value)` of `resp.raw.headers.items()` whose lowercased name is
not on the deny-list. -/
def filterRespHeaders (hs : List (String × String)) : List (String × String) :=
  hs.filter (fun kv => !(excludedHeaders.contains (asciiLower kv.1)))

/-- The `headers_dict` lookup of `log_response`: names lowercased, a later
duplicate overwriting an earlier one. -/
def headersDictGet (hs : List (String × String)) (name : String) : Option String :=
  ((hs.map (fun kv => (asciiLower kv.1, kv.2))).reverse.find?
    (fun kv => kv.1 == name)).map (fun kv => kv.2)

/-- The upstream response visible to `proxy`: status, raw headers, and the
raw body chunk stream. -/
structure UpstreamResponse where
  status : Nat
  headers : List (String × String)
  chunks : List (List Nat)

/-- `resp.content`: the fully buffered body bytes. -/
def UpstreamResponse.content (r : UpstreamResponse) : List Nat :=
  r.chunks.flatten

/-- A decompression oracle: `codecs enc body` is the result of the
library call for encoding `enc`, `none` where the library would raise on
invalid data. -/
def Codecs := String → List Nat → Option (List Nat)

/-- The decompression dispatch of `log_response`: choose the codec by the
`content-encoding` header, pass the body through unchanged for any other
or absent encoding; `none` when the chosen codec raises. -/
def logDecompress (codecs : Codecs) (hs : List (String × String))
    (body : List Nat) : Option (List Nat) :=
  match headersDictGet hs "content-encoding" with
  | some enc =>
      if enc = "br" then codecs "br" body
      else if enc = "gzip" then codecs "gzip" body
      else if enc = "deflate" then codecs "deflate" body
      else some body
  | none => some body

/-- What `proxy` hands back to the inbound caller. -/
inductive ProxyResult where
  | buffered (body : List Nat) (status : Nat) (headers : List (String × String))
  | streamed (out : List (List Nat))
deriving DecidableEq, Repr

/-- One `data:` field line carrying the value `v`, with its terminator. -/
def dataLine (v : List Nat) : List Nat :=
  asciiBytes "data: " ++ v ++ [10]

/-- A frame made of `data:` lines for the values `vs`, closed by the blank
line that completes the `\n\n` delimiter. -/
def dataFrame (vs : List (List Nat)) : List Nat :=
  (vs.map dataLine).flatten ++ [10]

/-- The values `vs` joined by single newlines. -/
def newlineJoin : List (List Nat) → List Nat
  | [] => []
  | [v] => v
  | v :: rest => v ++ 10 :: newlineJoin rest

/-- An ASCII decimal digit byte. -/
def isDigitByte (b : Nat) : Bool :=
  48 ≤ b && b ≤ 57

/-- Whether the bytes are the decimal representation of an integer (an
optional leading minus sign followed by at least one digit); this is the
claim's reading of `retry` as a parsed integer, not a function of the
source, which stores the raw field value. -/
def isIntegerNumeral (l : List Nat) : Bool :=
  if l.headD 0 = 45 then decide (l.tail ≠ []) && l.tail.all isDigitByte
  else decide (l ≠ []) && l.all isDigitByte

/-- Whether a frame line is a `retry` field line: the text before its
first `:` is exactly `retry`. Such a line starts with `r`, so it is
never blank and never a comment, and its field name differs from the
other three recognized names — it reaches exactly the decoder's
`retry` assignment. -/
def isRetryLine (l : List Nat) : Bool :=
  l.takeWhile (fun b => b ≠ 58) = asciiBytes "retry"

/-- The value the decoder stores for one field line: everything after
the first `:`, with a single leading space stripped; a line without `:`
contributes the empty value. -/
def fieldValue (l : List Nat) : List Nat :=
  let rest := (l.dropWhile (fun b => b ≠ 58)).tail
  if rest.headD 0 = 32 then rest.tail else rest

/-- The shape of every line produced by `bytes.splitlines(keepends=True)`:
a terminator-free body followed by one of the terminators, the terminator
absent only when the body is nonempty (the unterminated final line). -/
def IsLine (L : List Nat) : Prop :=
  ∃ b t, L = b ++ t ∧ (∀ x ∈ b, x ≠ 13 ∧ x ≠ 10) ∧
    (b ≠ [] ∧ t = [] ∨ t = [13] ∨ t = [10] ∨ t = [13, 10])

/-- The response half of `proxy`, from `log_response(resp)` onward:
`log_response` runs first and an exception it raises (a failing codec)
escapes the handler, so no response is relayed (`none`); otherwise the
buffered path returns `(resp.content, resp.status_code, headers)` minus
the deny-listed header names, and the streaming path returns the
serialized events of `stream_generate`. The branch is fixed by
`decideStreaming` of the inbound body, computed before the outbound send. -/
def proxy (codecs : Codecs) (parsed : Option JsonValue)
    (r : UpstreamResponse) : Option ProxyResult :=
  match logDecompress codecs r.headers r.content with
  | none => none
  | some _ =>
      some (if decideStreaming parsed then
              .streamed ((SSEClient.events r.chunks).map serializeEvent)
            else
              .buffered r.content r.status (filterRespHeaders r.headers))

/-! ## Reassembler lemmas: one line at a time versus one byte at a time -/

theorem isDelimEndR_cons_other {y : Nat} (h13 : y ≠ 13) (h10 : y ≠ 10)
    (l : List Nat) : isDelimEndR (y :: l) = false := by
  simp [isDelimEndR, List.take_succ_cons, h13, h10]

theorem isDelimEnd_append_single {d : List Nat} {x : Nat} (h13 : x ≠ 13)
    (h10 : x ≠ 10) : isDelimEnd (d ++ [x]) = false := by
  have hrev : (d ++ [x]).reverse = x :: d.reverse := by simp
  rw [isDelimEnd, hrev]
  exact isDelimEndR_cons_other h13 h10 _

theorem isDelimEndR_cr_cons {y : Nat} (h13 : y ≠ 13) (h10 : y ≠ 10)
    (l : List Nat) : isDelimEndR (13 :: y :: l) = false := by
  simp [isDelimEndR, List.take_succ_cons, h13, h10]

theorem isDelimEndR_cr_nohd {l : List Nat} (h : l.head? ≠ some 13) :
    isDelimEndR (13 :: l) = false := by
  cases l with
  | nil => rfl
  | cons y l' =>
    have hy : y ≠ 13 := by
      intro h13
      exact h (by rw [h13]; rfl)
    simp [isDelimEndR, List.take_succ_cons, hy]

theorem foldl_byteStep_body :
    ∀ (body : List Nat), (∀ x ∈ body, x ≠ 13 ∧ x ≠ 10) →
      ∀ (out : List (List Nat)) (d : List Nat),
        List.foldl byteStep (out, d) body = (out, d ++ body) := by
  intro body
  induction body with
  | nil => intro _ out d; simp
  | cons x rest ih =>
    intro hb out d
    obtain ⟨hx13, hx10⟩ := hb x (List.mem_cons_self x rest)
    have hstep : byteStep (out, d) x = (out, d ++ [x]) := by
      unfold byteStep
      simp [isDelimEnd_append_single hx13 hx10]
    rw [List.foldl_cons, hstep,
      ih (fun y hy => hb y (List.mem_cons_of_mem x hy)) out (d ++ [x]),
      List.append_assoc]
    rfl

theorem foldl_byteStep_line (out : List (List Nat)) (d b t : List Nat)
    (hb : ∀ x ∈ b, x ≠ 13 ∧ x ≠ 10)
    (ht : b ≠ [] ∧ t = [] ∨ t = [13] ∨ t = [10] ∨ t = [13, 10])
    (hsafe : ¬(b = [] ∧ t = [13, 10] ∧ d.reverse.head? = some 13)) :
    List.foldl byteStep (out, d) (b ++ t) = lineStep (out, d) (b ++ t) := by
  rcases ht with ⟨hbne, rfl⟩ | rfl | rfl | rfl
  · rw [List.append_nil, foldl_byteStep_body b hb out d]
    obtain ⟨b', y, hby⟩ := (List.eq_nil_or_concat b).resolve_left hbne
    rw [List.concat_eq_append] at hby
    subst hby
    obtain ⟨hy13, hy10⟩ := hb y (by simp)
    have hdelim : isDelimEnd (d ++ (b' ++ [y])) = false := by
      rw [← List.append_assoc]
      exact isDelimEnd_append_single hy13 hy10
    simp [lineStep, hdelim]
  · rw [List.foldl_append, foldl_byteStep_body b hb out d]
    simp only [List.foldl_cons, List.foldl_nil]
    unfold byteStep lineStep
    simp [List.append_assoc]
  · rw [List.foldl_append, foldl_byteStep_body b hb out d]
    simp only [List.foldl_cons, List.foldl_nil]
    unfold byteStep lineStep
    simp [List.append_assoc]
  · rw [show b ++ [13, 10] = (b ++ [13]) ++ [10] from by simp,
      List.foldl_append, List.foldl_append, foldl_byteStep_body b hb out d]
    have hmid : isDelimEnd ((d ++ b) ++ [13]) = false := by
      rcases List.eq_nil_or_concat b with rfl | ⟨b', y, hby⟩
      · have hno : d.reverse.head? ≠ some 13 := by
          intro hh
          exact hsafe ⟨rfl, rfl, hh⟩
        have hrev : ((d ++ ([] : List Nat)) ++ [13]).reverse = 13 :: d.reverse := by
          simp
        rw [isDelimEnd, hrev]
        exact isDelimEndR_cr_nohd hno
      · rw [List.concat_eq_append] at hby
        subst hby
        obtain ⟨hy13, hy10⟩ := hb y (by simp)
        have hrev : ((d ++ (b' ++ [y])) ++ [13]).reverse
            = 13 :: y :: (b'.reverse ++ d.reverse) := by simp
        rw [isDelimEnd, hrev]
        exact isDelimEndR_cr_cons hy13 hy10 _
    have hinner : List.foldl byteStep (out, d ++ b) [13] = (out, (d ++ b) ++ [13]) := by
      simp only [List.foldl_cons, List.foldl_nil]
      unfold byteStep
      simp only [List.append_assoc] at hmid
      simp [hmid]
    rw [hinner]
    simp only [List.foldl_cons, List.foldl_nil]
    unfold byteStep lineStep
    simp [List.append_assoc]

theorem hasCRCRLF_cons_of {l : List Nat} (h : hasCRCRLF l = true) (x : Nat) :
    hasCRCRLF (x :: l) = true := by
  match l with
  | [] => exact Bool.noConfusion h
  | [a] => exact Bool.noConfusion h
  | [a, b] => exact Bool.noConfusion h
  | a :: b :: c :: rest =>
    show hasCRCRLF (x :: a :: b :: c :: rest) = true
    unfold hasCRCRLF
    rw [h]
    simp

theorem hasCRCRLF_append_of {b : List Nat} (h : hasCRCRLF b = true) :
    ∀ a, hasCRCRLF (a ++ b) = true := by
  intro a
  induction a with
  | nil => simpa using h
  | cons x a' ih =>
    rw [List.cons_append]
    exact hasCRCRLF_cons_of ih x

theorem hasCRCRLF_crcrlf (d r : List Nat) :
    hasCRCRLF (d ++ 13 :: 13 :: 10 :: r) = true :=
  hasCRCRLF_append_of (by simp [hasCRCRLF]) d

theorem hasCRCRLF_of_suffix {a b : List Nat} (h : hasCRCRLF (a ++ b) = false) :
    hasCRCRLF b = false := by
  cases hc : hasCRCRLF b with
  | false => rfl
  | true =>
    rw [hasCRCRLF_append_of hc a] at h
    exact Bool.noConfusion h

theorem foldl_lineStep_to_bytes :
    ∀ (units : List (List Nat)) (out : List (List Nat)) (d : List Nat),
      (∀ u ∈ units, IsLine u) → hasCRCRLF (d ++ units.flatten) = false →
      List.foldl lineStep (out, d) units
        = List.foldl byteStep (out, d) units.flatten := by
  intro units
  induction units with
  | nil => intro out d _ _; rfl
  | cons u rest ih =>
    intro out d hu hcr
    obtain ⟨b, t, rfl, hb, ht⟩ := hu u (List.mem_cons_self u rest)
    have hsafe : ¬(b = [] ∧ t = [13, 10] ∧ d.reverse.head? = some 13) := by
      rintro ⟨rfl, rfl, hlast⟩
      cases hr : d.reverse with
      | nil => rw [hr] at hlast; exact Option.noConfusion hlast
      | cons x r =>
        have hx : x = 13 := by
          rw [hr] at hlast
          exact (Option.some.injEq _ _ ▸ hlast).symm ▸ rfl
        have hd : d = r.reverse ++ [13] := by
          rw [← List.reverse_reverse d, hr, hx]
          simp
        rw [hd] at hcr
        have : hasCRCRLF (r.reverse ++ 13 :: 13 :: 10 :: rest.flatten) = true :=
          hasCRCRLF_crcrlf _ _
        simp only [List.flatten_cons, List.nil_append, List.append_assoc,
          List.cons_append, List.nil_append] at hcr this
        rw [this] at hcr
        exact Bool.noConfusion hcr
    have hA := foldl_byteStep_line out d b t hb ht hsafe
    rw [List.foldl_cons, List.flatten_cons, List.foldl_append, hA]
    rcases hfire : isDelimEnd (d ++ (b ++ t)) with hf | hf
    · have hstep : lineStep (out, d) (b ++ t) = (out, d ++ (b ++ t)) := by
        unfold lineStep
        simp [hfire]
      rw [hstep]
      refine ih out (d ++ (b ++ t)) (fun v hv => hu v (List.mem_cons_of_mem _ hv)) ?_
      simp only [List.flatten_cons] at hcr
      simpa [List.append_assoc] using hcr
    · have hstep : lineStep (out, d) (b ++ t) = (out ++ [d ++ (b ++ t)], []) := by
        unfold lineStep
        simp [hfire]
      rw [hstep]
      refine ih (out ++ [d ++ (b ++ t)]) []
        (fun v hv => hu v (List.mem_cons_of_mem _ hv)) ?_
      have : hasCRCRLF rest.flatten = false := by
        have h2 : hasCRCRLF ((d ++ (b ++ t)) ++ rest.flatten) = false := by
          simpa [List.append_assoc] using hcr
        exact hasCRCRLF_of_suffix h2
      simpa using this

theorem splitKeepGo_flatten :
    ∀ (l acc : List Nat), (splitKeepGo l acc).flatten = acc.reverse ++ l := by
  intro l acc
  induction l, acc using splitKeepGo.induct with
  | case1 =>
    simp [splitKeepGo]
  | case2 acc h =>
    simp [splitKeepGo, h]
  | case3 rest acc ih =>
    simp [splitKeepGo, ih]
  | case4 rest acc h ih =>
    simp [splitKeepGo, h, ih]
  | case5 rest acc ih =>
    simp [splitKeepGo, ih]
  | case6 b rest acc hno h13 h10 ih =>
    simp [splitKeepGo, h13, h10, ih]

theorem splitKeepGo_isLine :
    ∀ (l acc : List Nat), (∀ x ∈ acc, x ≠ 13 ∧ x ≠ 10) →
      ∀ L ∈ splitKeepGo l acc, IsLine L := by
  intro l acc
  induction l, acc using splitKeepGo.induct with
  | case1 =>
    intro _ L hL
    simp [splitKeepGo] at hL
  | case2 acc h =>
    intro hacc L hL
    simp [splitKeepGo, h] at hL
    subst hL
    refine ⟨acc.reverse, [], by simp, ?_, Or.inl ⟨by simpa using h, rfl⟩⟩
    intro x hx
    exact hacc x (List.mem_reverse.mp hx)
  | case3 rest acc ih =>
    intro hacc L hL
    simp only [splitKeepGo, List.mem_cons] at hL
    rcases hL with rfl | hL
    · exact ⟨acc.reverse, [13, 10], rfl,
        fun x hx => hacc x (List.mem_reverse.mp hx), by simp⟩
    · exact ih (by simp) L hL
  | case4 rest acc h ih =>
    intro hacc L hL
    simp only [splitKeepGo, h, List.mem_cons] at hL
    rcases hL with rfl | hL
    · exact ⟨acc.reverse, [13], rfl,
        fun x hx => hacc x (List.mem_reverse.mp hx), by simp⟩
    · exact ih (by simp) L hL
  | case5 rest acc ih =>
    intro hacc L hL
    simp only [splitKeepGo, List.mem_cons] at hL
    rcases hL with rfl | hL
    · exact ⟨acc.reverse, [10], rfl,
        fun x hx => hacc x (List.mem_reverse.mp hx), by simp⟩
    · exact ih (by simp) L hL
  | case6 b rest acc hno h13 h10 ih =>
    intro hacc L hL
    simp only [splitKeepGo, h13, h10] at hL
    refine ih ?_ L hL
    intro x hx
    rcases List.mem_cons.mp hx with rfl | hx
    · exact ⟨h13, h10⟩
    · exact hacc x hx

theorem foldl_chunks_eq (cs : List (List Nat)) :
    ∀ s : ReadState,
      cs.foldl (fun s c => (splitlinesKeep c).foldl lineStep s) s
        = List.foldl lineStep s (cs.map splitlinesKeep).flatten := by
  induction cs with
  | nil => intro s; rfl
  | cons c cs' ih =>
    intro s
    rw [List.foldl_cons, List.map_cons, List.flatten_cons, List.foldl_append]
    exact ih _

theorem flatten_splitlines (cs : List (List Nat)) :
    ((cs.map splitlinesKeep).flatten).flatten = cs.flatten := by
  induction cs with
  | nil => rfl
  | cons c cs' ih =>
    rw [List.map_cons, List.flatten_cons, List.flatten_append, ih,
      List.flatten_cons]
    rw [show (splitlinesKeep c).flatten = c from by
      simpa using splitKeepGo_flatten c []]

theorem read_eq_byteFrames (cs : List (List Nat))
    (h : hasCRCRLF cs.flatten = false) :
    SSEClient.read cs = byteFrames cs.flatten := by
  unfold SSEClient.read byteFrames
  rw [foldl_chunks_eq]
  rw [foldl_lineStep_to_bytes (cs.map splitlinesKeep).flatten [] []
    (by
      intro u hu
      obtain ⟨lines, hlines, humem⟩ := List.mem_flatten.mp hu
      obtain ⟨c, _, rfl⟩ := List.mem_map.mp hlines
      exact splitKeepGo_isLine c [] (by simp) u humem)
    (by
      rw [List.nil_append, flatten_splitlines]
      exact h)]
  rw [flatten_splitlines]

/-! ## Claims -/

/-- C1 (amended): for every event-stream byte sequence that does not
contain the byte substring `\r\r\n`, feeding any two partitions of it
into chunks (including the single whole-sequence chunk and the per-byte
partition) through `SSEClient.read` and `SSEClient.events` yields the
identical ordered sequence of decoded events. -/
theorem c1_chunk_invariance (cs1 cs2 : List (List Nat))
    (hflat : cs1.flatten = cs2.flatten)
    (hcr : hasCRCRLF cs1.flatten = false) :
    SSEClient.events cs1 = SSEClient.events cs2 := by
  unfold SSEClient.events
  rw [read_eq_byteFrames cs1 hcr, hflat,
    read_eq_byteFrames cs2 (by rw [← hflat]; exact hcr)]

/-- C1 witness: the whole-sequence partition and the per-byte partition of
`data: hi\n\n` decode to the same events. -/
theorem c1_chunk_invariance_witness :
    ([asciiBytes "data: hi\n\n"] : List (List Nat)).flatten
        = (perByte (asciiBytes "data: hi\n\n")).flatten
    ∧ hasCRCRLF ([asciiBytes "data: hi\n\n"] : List (List Nat)).flatten = false
    ∧ SSEClient.events [asciiBytes "data: hi\n\n"]
        = SSEClient.events (perByte (asciiBytes "data: hi\n\n")) :=
  ⟨by decide, by decide,
    c1_chunk_invariance _ _ (by decide) (by decide)⟩

/-- C1 counterexample: on the byte sequence `data: x\r\r\ndata: y\n\n`
the whole-sequence partition decodes to one event with data `x\ny`,
while the per-byte partition decodes to two events `x` and `y` (the
chunk boundary inside the `\r\n` pair makes the buffer momentarily end
in `\r\r`), so chunk boundaries do affect the decoded event sequence. -/
theorem c1_counterexample :
    ([asciiBytes "data: x\r\r\ndata: y\n\n"] : List (List Nat)).flatten
        = (perByte (asciiBytes "data: x\r\r\ndata: y\n\n")).flatten
    ∧ SSEClient.events [asciiBytes "data: x\r\r\ndata: y\n\n"]
        ≠ SSEClient.events (perByte (asciiBytes "data: x\r\r\ndata: y\n\n")) :=
  ⟨by decide, by decide⟩

/-- C2 (amended): an event whose accumulated `data` (the concatenation of
`value + "\n"` for its data lines, the quantity the dispatch check tests)
is empty is discarded and never emitted, and conversely; in particular a
frame with no data lines at all, such as one containing only
`event: ping`, produces zero events. A frame whose data lines carry only
empty values still accumulates their newlines, so it is emitted. -/
theorem c2_empty_data_discarded :
    (∀ f : List Nat, decodeFrame f = none ↔ accumulatedData f = [])
    ∧ SSEClient.events [asciiBytes "event: ping\n\n"] = [] := by
  constructor
  · intro f
    unfold decodeFrame accumulatedData
    by_cases h : ((splitlinesDrop f).foldl processLine {}).data = [] <;> simp [h]
  · decide

/-- C2 witness: the `event: ping` frame accumulates no data and is
discarded. -/
theorem c2_empty_data_discarded_witness :
    accumulatedData (asciiBytes "event: ping\n\n") = []
    ∧ decodeFrame (asciiBytes "event: ping\n\n") = none :=
  ⟨by decide, (c2_empty_data_discarded.1 _).mpr (by decide)⟩

/-- C2 counterexample: the frame `data:\n\n` has exactly one data line and
it carries an empty value, yet the decoder emits one event (its
accumulated data is the newline appended for that line, which the check
`if not event.data` sees as nonempty; the trailing-newline strip then
leaves empty data on the emitted event). -/
theorem c2_counterexample :
    SSEClient.events [asciiBytes "data:\n\n"]
      = [{ id := none, event := asciiBytes "message", data := [], retry := none }] := by
  decide

/-! ## Decoder lemmas for multi-line data frames -/

theorem processLine_nil (e : Event) : processLine e [] = e := rfl

theorem processLine_dataLine (e : Event) (v : List Nat) :
    processLine e (asciiBytes "data: " ++ v)
      = { e with data := e.data ++ v ++ [10] } := rfl

theorem foldl_processLine_dataLines :
    ∀ (vs : List (List Nat)) (e : Event),
      List.foldl processLine e (vs.map (fun v => asciiBytes "data: " ++ v))
        = { e with data := e.data ++ (vs.map (fun v => v ++ [10])).flatten } := by
  intro vs
  induction vs with
  | nil => intro e; simp
  | cons v vs' ih =>
    intro e
    rw [List.map_cons, List.foldl_cons, processLine_dataLine, ih]
    simp [List.append_assoc]

theorem splitDropGo_body :
    ∀ (body rest acc : List Nat), (∀ x ∈ body, x ≠ 13 ∧ x ≠ 10) →
      splitDropGo (body ++ 10 :: rest) acc
        = (acc.reverse ++ body) :: splitDropGo rest [] := by
  intro body
  induction body with
  | nil => intro rest acc _; simp [splitDropGo]
  | cons x body' ih =>
    intro rest acc hb
    obtain ⟨h13, h10⟩ := hb x (List.mem_cons_self _ _)
    rw [List.cons_append,
      show splitDropGo (x :: (body' ++ 10 :: rest)) acc
        = splitDropGo (body' ++ 10 :: rest) (x :: acc) from by
          simp [splitDropGo, h13, h10],
      ih rest (x :: acc) (fun y hy => hb y (List.mem_cons_of_mem _ hy))]
    simp

theorem splitKeepGo_body :
    ∀ (body rest acc : List Nat), (∀ x ∈ body, x ≠ 13 ∧ x ≠ 10) →
      splitKeepGo (body ++ 10 :: rest) acc
        = (acc.reverse ++ body ++ [10]) :: splitKeepGo rest [] := by
  intro body
  induction body with
  | nil => intro rest acc _; simp [splitKeepGo]
  | cons x body' ih =>
    intro rest acc hb
    obtain ⟨h13, h10⟩ := hb x (List.mem_cons_self _ _)
    rw [List.cons_append,
      show splitKeepGo (x :: (body' ++ 10 :: rest)) acc
        = splitKeepGo (body' ++ 10 :: rest) (x :: acc) from by
          simp [splitKeepGo, h13, h10],
      ih rest (x :: acc) (fun y hy => hb y (List.mem_cons_of_mem _ hy))]
    simp

theorem dataPrefix_nonterm : ∀ x ∈ asciiBytes "data: ", x ≠ 13 ∧ x ≠ 10 := by
  decide

theorem dataLine_body_nonterm {v : List Nat}
    (hv : ∀ x ∈ v, x ≠ 13 ∧ x ≠ 10) :
    ∀ x ∈ asciiBytes "data: " ++ v, x ≠ 13 ∧ x ≠ 10 := by
  intro x hx
  rcases List.mem_append.mp hx with hx | hx
  · exact dataPrefix_nonterm x hx
  · exact hv x hx

theorem splitlinesDrop_dataFrame :
    ∀ (vs : List (List Nat)), (∀ v ∈ vs, ∀ x ∈ v, x ≠ 13 ∧ x ≠ 10) →
      splitlinesDrop (dataFrame vs)
        = (vs.map (fun v => asciiBytes "data: " ++ v)) ++ [[]] := by
  intro vs
  induction vs with
  | nil =>
    intro _
    simp [splitlinesDrop, dataFrame, splitDropGo]
  | cons v vs' ih =>
    intro hv
    have hbody := dataLine_body_nonterm (hv v (List.mem_cons_self _ _))
    have hshape : dataFrame (v :: vs')
        = (asciiBytes "data: " ++ v) ++ 10 :: dataFrame vs' := by
      simp [dataFrame, dataLine, List.append_assoc]
    rw [splitlinesDrop, hshape, splitDropGo_body _ _ [] hbody]
    rw [show splitDropGo (dataFrame vs') [] = splitlinesDrop (dataFrame vs') from rfl,
      ih (fun w hw => hv w (List.mem_cons_of_mem _ hw))]
    simp

theorem splitlinesKeep_dataFrame :
    ∀ (vs : List (List Nat)), (∀ v ∈ vs, ∀ x ∈ v, x ≠ 13 ∧ x ≠ 10) →
      splitlinesKeep (dataFrame vs) = (vs.map dataLine) ++ [[10]] := by
  intro vs
  induction vs with
  | nil =>
    intro _
    simp [splitlinesKeep, dataFrame, splitKeepGo]
  | cons v vs' ih =>
    intro hv
    have hbody := dataLine_body_nonterm (hv v (List.mem_cons_self _ _))
    have hshape : dataFrame (v :: vs')
        = (asciiBytes "data: " ++ v) ++ 10 :: dataFrame vs' := by
      simp [dataFrame, dataLine, List.append_assoc]
    rw [splitlinesKeep, hshape, splitKeepGo_body _ _ [] hbody]
    rw [show splitKeepGo (dataFrame vs') [] = splitlinesKeep (dataFrame vs') from rfl,
      ih (fun w hw => hv w (List.mem_cons_of_mem _ hw))]
    simp [dataLine, List.append_assoc]

theorem isDelimEndR_lf_cons {y : Nat} (h13 : y ≠ 13) (h10 : y ≠ 10)
    (l : List Nat) : isDelimEndR (10 :: y :: l) = false := by
  simp [isDelimEndR, List.take_succ_cons, h13, h10]

theorem isDelimEnd_dataLine (d v : List Nat)
    (hv : ∀ x ∈ v, x ≠ 13 ∧ x ≠ 10) :
    isDelimEnd (d ++ dataLine v) = false := by
  have hrev : (d ++ dataLine v).reverse
      = 10 :: (v.reverse ++ ((asciiBytes "data: ").reverse ++ d.reverse)) := by
    simp [dataLine]
  rw [isDelimEnd, hrev]
  cases hvr : v.reverse with
  | nil =>
    rw [List.nil_append,
      show (asciiBytes "data: ").reverse = [32, 58, 97, 116, 97, 100] from rfl,
      show ([32, 58, 97, 116, 97, 100] : List Nat) ++ d.reverse
        = 32 :: ([58, 97, 116, 97, 100] ++ d.reverse) from rfl]
    exact isDelimEndR_lf_cons (by decide) (by decide) _
  | cons y r =>
    have hy := hv y (by rw [← List.mem_reverse, hvr]; simp)
    rw [List.cons_append]
    exact isDelimEndR_lf_cons hy.1 hy.2 _

theorem foldl_lineStep_dataLines :
    ∀ (vs : List (List Nat)) (out : List (List Nat)) (d : List Nat),
      (∀ v ∈ vs, ∀ x ∈ v, x ≠ 13 ∧ x ≠ 10) →
      List.foldl lineStep (out, d) (vs.map dataLine)
        = (out, d ++ (vs.map dataLine).flatten) := by
  intro vs
  induction vs with
  | nil => intro out d _; simp
  | cons v vs' ih =>
    intro out d hv
    have hnofire := isDelimEnd_dataLine d v (hv v (List.mem_cons_self _ _))
    have hstep : lineStep (out, d) (dataLine v) = (out, d ++ dataLine v) := by
      unfold lineStep
      simp [hnofire]
    rw [List.map_cons, List.foldl_cons, hstep,
      ih out (d ++ dataLine v) (fun w hw => hv w (List.mem_cons_of_mem _ hw))]
    simp [List.append_assoc]

theorem flatten_dataLines_reverse :
    ∀ (vs : List (List Nat)), vs ≠ [] →
      ∃ r, ((vs.map dataLine).flatten).reverse = 10 :: r := by
  intro vs
  induction vs with
  | nil => intro h; exact absurd rfl h
  | cons v vs' ih =>
    intro _
    cases vs' with
    | nil =>
      refine ⟨(v.reverse ++ (asciiBytes "data: ").reverse), ?_⟩
      simp [dataLine]
    | cons w ws =>
      obtain ⟨r, hr⟩ := ih (by simp)
      refine ⟨r ++ (dataLine v).reverse, ?_⟩
      rw [List.map_cons, List.flatten_cons, List.reverse_append, hr]
      simp

theorem read_dataFrame (vs : List (List Nat)) (hne : vs ≠ [])
    (hv : ∀ v ∈ vs, ∀ x ∈ v, x ≠ 13 ∧ x ≠ 10) :
    SSEClient.read [dataFrame vs] = [dataFrame vs] := by
  unfold SSEClient.read
  rw [List.foldl_cons, List.foldl_nil, splitlinesKeep_dataFrame vs hv,
    List.foldl_append, foldl_lineStep_dataLines vs [] [] hv]
  obtain ⟨r, hr⟩ := flatten_dataLines_reverse vs hne
  have hfire : isDelimEnd ((vs.map dataLine).flatten ++ [10]) = true := by
    rw [isDelimEnd, List.reverse_append, hr]
    simp [isDelimEndR]
  have hstep : lineStep (([] : List (List Nat)), [] ++ (vs.map dataLine).flatten) [10]
      = ([([] ++ (vs.map dataLine).flatten) ++ [10]], []) := by
    unfold lineStep
    simp [hfire]
  rw [List.foldl_cons, hstep, List.foldl_nil]
  unfold flushFrames
  simp [dataFrame]

theorem flatten_map_newlineJoin :
    ∀ vs : List (List Nat), vs ≠ [] →
      (vs.map (fun v => v ++ [10])).flatten = newlineJoin vs ++ [10] := by
  intro vs
  induction vs with
  | nil => intro h; exact absurd rfl h
  | cons v vs' ih =>
    intro _
    cases vs' with
    | nil => simp [newlineJoin]
    | cons w ws =>
      rw [List.map_cons, List.flatten_cons, ih (by simp),
        show newlineJoin (v :: w :: ws) = v ++ 10 :: newlineJoin (w :: ws) from rfl]
      simp [List.append_assoc]

/-- C5: decoding a frame of `data:` field lines carrying the values `vs`
(each free of line terminators) appends each value plus a newline to the
accumulating data, and after the single trailing newline is stripped the
one emitted event's data is the newline-joined values. -/
theorem c5_multiline_data (vs : List (List Nat)) (hne : vs ≠ [])
    (hv : ∀ v ∈ vs, ∀ x ∈ v, x ≠ 13 ∧ x ≠ 10) :
    SSEClient.events [dataFrame vs]
      = [{ id := none, event := asciiBytes "message",
           data := newlineJoin vs, retry := none }] := by
  have hdec : decodeFrame (dataFrame vs)
      = some { id := none, event := asciiBytes "message",
               data := newlineJoin vs, retry := none } := by
    unfold decodeFrame
    rw [splitlinesDrop_dataFrame vs hv, List.foldl_append,
      foldl_processLine_dataLines vs {}, List.foldl_cons, List.foldl_nil,
      processLine_nil, flatten_map_newlineJoin vs hne]
    simp [List.getLast?_concat, List.dropLast_concat]
  unfold SSEClient.events
  rw [read_dataFrame vs hne hv]
  simp [hdec]

/-- C5 witness: the frame `data: foo\ndata: bar\n\n` decodes to exactly
one event whose data is `foo\nbar`. -/
theorem c5_multiline_data_witness :
    SSEClient.events [asciiBytes "data: foo\ndata: bar\n\n"]
      = [{ id := none, event := asciiBytes "message",
           data := asciiBytes "foo\nbar", retry := none }] := by
  have h := c5_multiline_data [asciiBytes "foo", asciiBytes "bar"]
    (by decide) (by decide)
  rw [show dataFrame [asciiBytes "foo", asciiBytes "bar"]
      = asciiBytes "data: foo\ndata: bar\n\n" from by decide] at h
  rw [show newlineJoin [asciiBytes "foo", asciiBytes "bar"]
      = asciiBytes "foo\nbar" from by decide] at h
  exact h

/-- C6: serializing an event with event `message` and data `hello` through
the outbound emission format `data: <data>\n\n` of `stream_generate` and
decoding the bytes back through the Reassembler and the Decoder
reproduces exactly one event with data `hello` and event `message`. -/
theorem c6_roundtrip :
    SSEClient.events [serializeEvent
      { id := none, event := asciiBytes "message",
        data := asciiBytes "hello", retry := none }]
      = [{ id := none, event := asciiBytes "message",
           data := asciiBytes "hello", retry := none }] := by
  decide

theorem foldl_lineStep_out_delim :
    ∀ (units : List (List Nat)) (out : List (List Nat)) (d : List Nat),
      (∀ f ∈ out, isDelimEnd f = true) →
      ∀ f ∈ (List.foldl lineStep (out, d) units).1, isDelimEnd f = true := by
  intro units
  induction units with
  | nil => intro out d h f hf; exact h f hf
  | cons u rest ih =>
    intro out d h f hf
    by_cases hfire : isDelimEnd (d ++ u) = true
    · have hstep : lineStep (out, d) u = (out ++ [d ++ u], []) := by
        unfold lineStep
        simp [hfire]
      rw [List.foldl_cons, hstep] at hf
      refine ih _ _ ?_ f hf
      intro g hg
      rcases List.mem_append.mp hg with hg | hg
      · exact h g hg
      · rw [List.mem_singleton.mp hg]
        exact hfire
    · have hstep : lineStep (out, d) u = (out, d ++ u) := by
        unfold lineStep
        simp [hfire]
      rw [List.foldl_cons, hstep] at hf
      exact ih _ _ h f hf

/-- C8 (amended): every frame emitted by `SSEClient.read` other than the
final one ends with one of the delimiter pairs `\r\r`, `\n\n`,
`\r\n\r\n`; the final frame is the residual-buffer flush and may lack a
terminator. -/
theorem c8_frames_delimited (cs : List (List Nat)) (f : List Nat)
    (hf : f ∈ (SSEClient.read cs).dropLast) :
    isDelimEnd f = true := by
  unfold SSEClient.read at hf
  rw [foldl_chunks_eq] at hf
  have hout := foldl_lineStep_out_delim ((cs.map splitlinesKeep).flatten) [] []
    (by intro g hg; cases hg)
  unfold flushFrames at hf
  by_cases he : (List.foldl lineStep ([], []) ((cs.map splitlinesKeep).flatten)).2 = []
  · rw [if_pos he] at hf
    exact hout f (List.mem_of_mem_dropLast hf)
  · rw [if_neg he, List.dropLast_concat] at hf
    exact hout f hf

/-- C8 witness: the input `data: a\n\ndata` yields two frames; the
non-final one ends with `\n\n`. -/
theorem c8_frames_delimited_witness :
    (asciiBytes "data: a\n\n") ∈ (SSEClient.read [asciiBytes "data: a\n\ndata"]).dropLast
    ∧ isDelimEnd (asciiBytes "data: a\n\n") = true :=
  ⟨by decide, c8_frames_delimited [asciiBytes "data: a\n\ndata"]
    (asciiBytes "data: a\n\n") (by decide)⟩

/-- C8 counterexample: on the unterminated input `data: x` the residual
flush emits the frame `data: x`, which ends with none of the three
delimiter pairs, so not every emitted frame is delimiter-terminated. -/
theorem c8_counterexample :
    SSEClient.read [asciiBytes "data: x"] = [asciiBytes "data: x"]
    ∧ isDelimEnd (asciiBytes "data: x") = false :=
  ⟨by decide, by decide⟩

theorem processLine_retry (e : Event) (l : List Nat)
    (h : l.takeWhile (fun b => b ≠ 58) ≠ asciiBytes "retry") :
    (processLine e l).retry = e.retry := by
  simp only [processLine]
  repeat' split
  all_goals rfl

theorem processLine_retry_pos (e : Event) (l : List Nat)
    (h : l.takeWhile (fun b => b ≠ 58) = asciiBytes "retry") :
    (processLine e l).retry = some (fieldValue l) := by
  obtain ⟨l', rfl⟩ : ∃ l', l = 114 :: l' := by
    cases l with
    | nil =>
      rw [show List.takeWhile (fun b => b ≠ 58) ([] : List Nat) = [] from rfl,
        show asciiBytes "retry" = [114, 101, 116, 114, 121] from rfl] at h
      cases h
    | cons x l' =>
      refine ⟨l', ?_⟩
      rw [List.takeWhile_cons,
        show asciiBytes "retry" = [114, 101, 116, 114, 121] from rfl] at h
      by_cases hx : x ≠ 58
      · rw [if_pos (by simpa using hx)] at h
        rw [(List.cons.injEq _ _ _ _).mp h |>.1]
      · rw [if_neg (by simpa using hx)] at h
        cases h
  have hall : ¬((114 :: l').all isSpaceByte = true) := by
    rw [List.all_cons]
    simp [isSpaceByte]
  have hhead : ¬((114 :: l').headD 0 = 58) := by simp
  simp only [processLine, h]
  rw [if_neg hall, if_neg hhead, if_neg (by decide), if_neg (by decide),
    if_neg (by decide)]
  rfl

theorem foldl_processLine_retry_last :
    ∀ (lines : List (List Nat)) (e : Event),
      (List.foldl processLine e lines).retry
        = match lines.reverse.find? isRetryLine with
          | some l => some (fieldValue l)
          | none => e.retry := by
  intro lines
  induction lines with
  | nil => intro e; rfl
  | cons l rest ih =>
    intro e
    rw [List.foldl_cons, ih (processLine e l), List.reverse_cons,
      List.find?_append]
    cases hfind : rest.reverse.find? isRetryLine with
    | some m => rfl
    | none =>
      cases hl : isRetryLine l with
      | true =>
        rw [show List.find? isRetryLine [l] = some l from by
          rw [List.find?_cons, hl]]
        exact processLine_retry_pos e l (by simpa [isRetryLine] using hl)
      | false =>
        rw [show List.find? isRetryLine [l] = none from by
          simp [List.find?_cons, hl]]
        exact processLine_retry e l (by simpa [isRetryLine] using hl)

/-- C9 (amended): on every decoded event the `retry` field is an optional
raw string: it is absent (`none`) when no line of the frame has the field
name `retry`, and otherwise it holds the unparsed byte value of the last
`retry` field line of the frame (no integer parsing takes place in the
decoder). -/
theorem c9_retry_raw_value :
    ∀ (f : List Nat) (e : Event), decodeFrame f = some e →
      e.retry = ((splitlinesDrop f).reverse.find? isRetryLine).map fieldValue := by
  intro f e hdec
  unfold decodeFrame at hdec
  by_cases hd : ((splitlinesDrop f).foldl processLine {}).data = []
  · rw [if_pos hd] at hdec
    cases hdec
  · rw [if_neg hd] at hdec
    injection hdec with hdec
    subst hdec
    show (List.foldl processLine {} (splitlinesDrop f)).retry = _
    rw [foldl_processLine_retry_last]
    cases hfind : (splitlinesDrop f).reverse.find? isRetryLine with
    | some m => rfl
    | none => rfl

/-- C9 witness: in a frame with two `retry` lines the decoded event's
retry is the raw value of the last one, here `200`. -/
theorem c9_retry_raw_value_witness :
    ({ id := none, event := asciiBytes "message", data := asciiBytes "x",
       retry := some (asciiBytes "200") } : Event).retry
      = ((splitlinesDrop
            (asciiBytes "retry: 100\nretry: 200\ndata: x\n\n")).reverse.find?
          isRetryLine).map fieldValue
    ∧ ((splitlinesDrop
          (asciiBytes "retry: 100\nretry: 200\ndata: x\n\n")).reverse.find?
        isRetryLine).map fieldValue = some (asciiBytes "200") :=
  ⟨c9_retry_raw_value (asciiBytes "retry: 100\nretry: 200\ndata: x\n\n")
    { id := none, event := asciiBytes "message", data := asciiBytes "x",
      retry := some (asciiBytes "200") }
    (by decide), by decide⟩

/-- C9 counterexample: the frame `retry: abc\ndata: x\n\n` produces an
event whose `retry` is set to the raw bytes `abc`, which are not the
decimal representation of any integer: the decoder stores the unparsed
field value, so `retry` is not an optional parsed integer. -/
theorem c9_counterexample :
    SSEClient.events [asciiBytes "retry: abc\ndata: x\n\n"]
      = [{ id := none, event := asciiBytes "message",
           data := asciiBytes "x", retry := some (asciiBytes "abc") }]
    ∧ isIntegerNumeral (asciiBytes "abc") = false :=
  ⟨by decide, by decide⟩

/-- C3 (code bug): when the upstream response declares
`Content-Encoding: gzip` and the body is not valid gzip data, the
decompression call inside `log_response` raises; nothing catches the
exception, so the exchange aborts (`none`) and the original body, status
and headers are not relayed — with a codec that succeeds on the same
response the buffered relay would have been produced, so the abort is
caused precisely by the decompression failure on the log path. -/
theorem c3_decompression_failure_aborts :
    proxy (fun _ _ => none) none
      { status := 200,
        headers := [("Content-Encoding", "gzip"), ("X-Served-By", "upstream")],
        chunks := [asciiBytes "junk"] } = none
    ∧ proxy (fun _ b => some b) none
      { status := 200,
        headers := [("Content-Encoding", "gzip"), ("X-Served-By", "upstream")],
        chunks := [asciiBytes "junk"] }
      = some (.buffered (asciiBytes "junk") 200
          [("Content-Encoding", "gzip"), ("X-Served-By", "upstream")]) :=
  ⟨by decide, by decide⟩

/-- C4: the streaming-mode decision reads the `stream` property of the
JSON-parsed inbound body; a failed parse resolves to non-streaming, an
absent property resolves to non-streaming, and whenever `proxy` produces
a response its form (buffered or streamed) is fixed by that one decision,
a function of the inbound body alone, computed before the outbound send. -/
theorem c4_mode_decision :
    decideStreaming none = false
    ∧ (∀ parsed, getStream parsed = none → decideStreaming parsed = false)
    ∧ (∀ (codecs : Codecs) (parsed : Option JsonValue) (r : UpstreamResponse)
          (res : ProxyResult), proxy codecs parsed r = some res →
        (decideStreaming parsed = false
            ∧ res = .buffered r.content r.status (filterRespHeaders r.headers))
        ∨ (decideStreaming parsed = true
            ∧ res = .streamed ((SSEClient.events r.chunks).map serializeEvent))) := by
  refine ⟨rfl, ?_, ?_⟩
  · intro parsed h
    unfold decideStreaming
    rw [h]
  · intro codecs parsed r res h
    unfold proxy at h
    cases hlog : logDecompress codecs r.headers r.content with
    | none => rw [hlog] at h; cases h
    | some x =>
      rw [hlog] at h
      cases hv : decideStreaming parsed with
      | false =>
        left
        refine ⟨rfl, ?_⟩
        rw [hv] at h
        simp at h
        exact h.symm
      | true =>
        right
        refine ⟨rfl, ?_⟩
        rw [hv] at h
        simp at h
        exact h.symm

/-- C4 witness: an unparseable body resolves to non-streaming and the
exchange produces the buffered form. -/
theorem c4_mode_decision_witness :
    decideStreaming none = false
    ∧ proxy (fun _ b => some b) none
        { status := 200, headers := [], chunks := [asciiBytes "ok"] }
      = some (.buffered (asciiBytes "ok") 200 []) := by
  have h := c4_mode_decision.2.2 (fun _ b => some b) none
    { status := 200, headers := [], chunks := [asciiBytes "ok"] }
    (.buffered (asciiBytes "ok") 200 []) (by decide)
  rcases h with ⟨hf, _⟩ | ⟨ht, _⟩
  · exact ⟨hf, by decide⟩
  · exact absurd ht (by decide)

/-- C7: whenever a non-streaming exchange relays a buffered response, that
response carries the upstream body bytes unchanged, the upstream status
code unchanged, and exactly those original headers whose lowercased name
is neither `content-length` nor `connection`, in their original order
with all other headers untouched. -/
theorem c7_buffered_relay (codecs : Codecs) (parsed : Option JsonValue)
    (r : UpstreamResponse) (body : List Nat) (status : Nat)
    (hdrs : List (String × String))
    (h : proxy codecs parsed r = some (.buffered body status hdrs)) :
    body = r.content ∧ status = r.status
    ∧ hdrs = r.headers.filter (fun kv =>
        decide (asciiLower kv.1 ≠ "content-length" ∧ asciiLower kv.1 ≠ "connection"))
    ∧ (∀ kv, kv ∈ hdrs ↔ kv ∈ r.headers ∧ asciiLower kv.1 ≠ "content-length"
        ∧ asciiLower kv.1 ≠ "connection") := by
  have hfilter : filterRespHeaders r.headers
      = r.headers.filter (fun kv =>
          decide (asciiLower kv.1 ≠ "content-length" ∧ asciiLower kv.1 ≠ "connection")) := by
    refine List.filter_congr ?_
    intro kv _
    simp [excludedHeaders, List.contains_cons, beq_eq_decide]
  unfold proxy at h
  cases hlog : logDecompress codecs r.headers r.content with
  | none => rw [hlog] at h; cases h
  | some x =>
    rw [hlog] at h
    cases hv : decideStreaming parsed with
    | true =>
      rw [hv] at h
      simp at h
    | false =>
      rw [hv] at h
      simp at h
      obtain ⟨hb, hst, hh⟩ := h
      refine ⟨hb.symm, hst.symm, ?_, ?_⟩
      · rw [← hh, hfilter]
      · intro kv
        rw [← hh, hfilter, List.mem_filter]
        simp

/-- C7 witness: a response with `Content-Length`, `Connection` and two
other headers relays exactly the two others. -/
theorem c7_buffered_relay_witness :
    ([("X-Request-Id", "1"), ("content-TYPE", "t")] : List (String × String))
      = ({ status := 200,
           headers := [("Content-Length", "3"), ("X-Request-Id", "1"),
                       ("Connection", "keep-alive"), ("content-TYPE", "t")],
           chunks := [asciiBytes "ok"] } : UpstreamResponse).headers.filter
          (fun kv => decide (asciiLower kv.1 ≠ "content-length"
                        ∧ asciiLower kv.1 ≠ "connection")) :=
  (c7_buffered_relay (fun _ b => some b) none
    { status := 200,
      headers := [("Content-Length", "3"), ("X-Request-Id", "1"),
                  ("Connection", "keep-alive"), ("content-TYPE", "t")],
      chunks := [asciiBytes "ok"] }
    (asciiBytes "ok") 200
    [("X-Request-Id", "1"), ("content-TYPE", "t")]
    (by decide)).2.2.1

/-- C10: the streaming path is selected exactly when the `stream` property
of the JSON body is present and truthy by Python truthiness — so the
number 1 and a nonempty string stream, while false, 0, null, the empty
string, or an absent property buffer. -/
theorem c10_truthy_streaming :
    (∀ parsed, decideStreaming parsed = true
        ↔ ∃ v, getStream parsed = some v ∧ truthy v = true)
    ∧ decideStreaming (some (.obj [("stream", .num 1)])) = true
    ∧ decideStreaming (some (.obj [("stream", .str "yes")])) = true
    ∧ decideStreaming (some (.obj [("stream", .bool false)])) = false
    ∧ decideStreaming (some (.obj [("stream", .num 0)])) = false
    ∧ decideStreaming (some (.obj [("stream", .null)])) = false
    ∧ decideStreaming (some (.obj [("stream", .str "")])) = false
    ∧ decideStreaming (some (.obj [("other", .bool true)])) = false := by
  refine ⟨?_, rfl, rfl, rfl, rfl, rfl, rfl, rfl⟩
  intro parsed
  unfold decideStreaming
  cases h : getStream parsed with
  | none => simp
  | some v => simp

/-- C10 witness: a numeric truthy `stream` value selects streaming. -/
theorem c10_truthy_streaming_witness :
    decideStreaming (some (.obj [("stream", .num 2)])) = true :=
  (c10_truthy_streaming.1 (some (.obj [("stream", .num 2)]))).mpr
    ⟨.num 2, rfl, rfl⟩
